import Mathlib

/-!
Verification of the natural-language specification of the winedump PE
analyzer (tools/winedump/pe.c) against a shallow embedding of its code.

The image is modelled as a list of bytes (`List Nat`, each value a byte);
DWORD fields are `Nat` values with explicit `% 2^32` wherever the C source
performs 32-bit arithmetic.  Printing is modelled by returning the printed
data as structured values; a C read or write that is out of bounds
(undefined behavior) is modelled as `Option.none`.
-/

/-- Modelled from the spec: the Image Accessor primitive `PRD` (the physical
read; its definition lives outside the sampled source).  Per spec section 4.1
it returns the slice of exactly `len` bytes at `off` and `none` when
`off + len` exceeds the buffer length. -/
def PRD (img : List Nat) (off len : Nat) : Option (List Nat) :=
  if off + len ≤ img.length then some ((img.drop off).take len) else none

/-- The three section-header fields read by the `RVA` resolver in pe.c
(IMAGE_SECTION_HEADER.VirtualAddress, SizeOfRawData, PointerToRawData). -/
structure PESection where
  virtualAddress : Nat
  sizeOfRawData : Nat
  pointerToRawData : Nat
deriving Repr, DecidableEq

/-- The match test of pe.c lines 79-80:
`sectHead[i].VirtualAddress <= rva && rva + len <= (DWORD)sectHead[i].VirtualAddress + sectHead[i].SizeOfRawData`.
The right-hand sum is computed in 32-bit (DWORD) arithmetic in the C source,
hence the `% 2^32`. -/
def sectionMatches (s : PESection) (va len : Nat) : Bool :=
  decide (s.virtualAddress ≤ va) &&
    decide (va + len ≤ (s.virtualAddress + s.sizeOfRawData) % 4294967296)

/-- First matching section of a list.  `RVA` feeds it the section table in
reverse, embedding the downward loop `for (i = n - 1; i >= 0; i--)`. -/
def scanSections : List PESection → Nat → Nat → Option PESection
  | [], _, _ => none
  | s :: rest, va, len =>
      if sectionMatches s va len then some s else scanSections rest va len

/-- The `RVA` function of pe.c lines 69-88: `rva == 0` resolves to `NULL`;
otherwise the section table is scanned from the highest index down, and the
first match delegates to `PRD` at
`PointerToRawData + rva - VirtualAddress`. -/
def RVA (img : List Nat) (sections : List PESection) (rva len : Nat) :
    Option (List Nat) :=
  if rva = 0 then none
  else
    match scanSections sections.reverse rva len with
    | some s => PRD img (s.pointerToRawData + rva - s.virtualAddress) len
    | none => none

lemma sectionMatches_true_iff (s : PESection) (va len : Nat)
    (h : s.virtualAddress + s.sizeOfRawData < 4294967296) :
    sectionMatches s va len = true ↔
      (s.virtualAddress ≤ va ∧ va + len ≤ s.virtualAddress + s.sizeOfRawData) := by
  simp [sectionMatches, Nat.mod_eq_of_lt h]

lemma scanSections_all_none (l : List PESection) (va len : Nat)
    (h : ∀ s ∈ l, sectionMatches s va len = false) :
    scanSections l va len = none := by
  induction l with
  | nil => rfl
  | cons s rest ih =>
      have hs := h s (List.mem_cons_self s rest)
      simp only [scanSections, hs]
      simp only [Bool.false_eq_true, if_false]
      exact ih fun t ht => h t (List.mem_cons_of_mem _ ht)

lemma scanSections_append_none (l₁ l₂ : List PESection) (va len : Nat)
    (h : ∀ s ∈ l₁, sectionMatches s va len = false) :
    scanSections (l₁ ++ l₂) va len = scanSections l₂ va len := by
  induction l₁ with
  | nil => rfl
  | cons s rest ih =>
      have hs := h s (List.mem_cons_self s rest)
      simp only [List.cons_append, scanSections, hs]
      simp only [Bool.false_eq_true, if_false]
      exact ih fun t ht => h t (List.mem_cons_of_mem _ ht)

/-- C1: RVA resolution scans sections from the highest index down; a section
matches exactly when `VirtualAddress <= va` and
`va + len <= VirtualAddress + SizeOfRawData`; the highest-index match yields
the physical read at `PointerToRawData + (va - VirtualAddress)` for `len`
bytes; `va = 0` and the no-match case both resolve to `none`.  The
well-formedness hypothesis `hwf` discharges the 32-bit wrap in the C
comparison. -/
theorem C1_rva_resolution (img : List Nat) (sections : List PESection)
    (va len : Nat)
    (hwf : ∀ s ∈ sections, s.virtualAddress + s.sizeOfRawData < 4294967296) :
    (va = 0 → RVA img sections va len = none) ∧
    ((∀ s ∈ sections,
        ¬ (s.virtualAddress ≤ va ∧ va + len ≤ s.virtualAddress + s.sizeOfRawData)) →
      RVA img sections va len = none) ∧
    (∀ pre s post, sections = pre ++ s :: post → va ≠ 0 →
      (s.virtualAddress ≤ va ∧ va + len ≤ s.virtualAddress + s.sizeOfRawData) →
      (∀ t ∈ post,
        ¬ (t.virtualAddress ≤ va ∧ va + len ≤ t.virtualAddress + t.sizeOfRawData)) →
      RVA img sections va len =
        PRD img (s.pointerToRawData + va - s.virtualAddress) len) := by
  refine ⟨fun h => by simp [RVA, h], ?_, ?_⟩
  · intro hno
    by_cases hz : va = 0
    · simp [RVA, hz]
    · have hall : ∀ s ∈ sections.reverse, sectionMatches s va len = false := by
        intro s hs
        rw [List.mem_reverse] at hs
        have : ¬ sectionMatches s va len = true := by
          rw [sectionMatches_true_iff s va len (hwf s hs)]
          exact hno s hs
        simpa using this
      simp only [RVA, if_neg hz, scanSections_all_none _ va len hall]
  · intro pre s post hdec hz hmatch hpost
    have hsmem : s ∈ sections := by rw [hdec]; exact List.mem_append_right _ (List.mem_cons_self _ _)
    have hrev : sections.reverse = post.reverse ++ s :: pre.reverse := by
      rw [hdec]
      simp [List.reverse_append]
    have hpostfail : ∀ t ∈ post.reverse, sectionMatches t va len = false := by
      intro t ht
      rw [List.mem_reverse] at ht
      have htmem : t ∈ sections := by
        rw [hdec]
        exact List.mem_append_right _ (List.mem_cons_of_mem _ ht)
      have : ¬ sectionMatches t va len = true := by
        rw [sectionMatches_true_iff t va len (hwf t htmem)]
        exact hpost t ht
      simpa using this
    have hsm : sectionMatches s va len = true :=
      (sectionMatches_true_iff s va len (hwf s hsmem)).2 hmatch
    simp only [RVA, if_neg hz, hrev,
      scanSections_append_none _ _ va len hpostfail, scanSections, hsm, if_true]

/-- C1 witness: a concrete image with one section at virtual address 4096,
raw size 8, raw offset 0; resolving virtual address 4098 for 2 bytes yields
the physical read at file offset 2. -/
theorem C1_rva_resolution_witness :
    RVA [10, 11, 12, 13, 14, 15, 16, 17] [⟨4096, 8, 0⟩] 4098 2 =
      PRD [10, 11, 12, 13, 14, 15, 16, 17] 2 2 := by
  have h := (C1_rva_resolution [10, 11, 12, 13, 14, 15, 16, 17] [⟨4096, 8, 0⟩]
      4098 2 (by decide)).2.2 [] ⟨4096, 8, 0⟩ [] rfl (by decide) (by decide)
      (by simp)
  exact h

/-- The name-merge loop of `dump_dir_exported_functions` (pe.c line 518):
`for (i = 0; i < NumberOfNames; i++) funcs[pOrdl[i]] = pName[i];`.
`funcs` is a heap array of `NumberOfFunctions` entries; the C source performs
the write without any bounds check, so a pair whose ordinal-offset is not
below the array length is an out-of-bounds write (undefined behavior),
modelled here as `none`. -/
def mergeNamedFuncs : List Nat → List (Nat × Nat) → Option (List Nat)
  | funcs, [] => some funcs
  | funcs, (ordl, nameRva) :: rest =>
      if ordl < funcs.length then mergeNamedFuncs (funcs.set ordl nameRva) rest
      else none

/-- The merge pass as called from `dump_dir_exported_functions`: `funcs` is
allocated with `calloc(NumberOfFunctions, ...)` (zero-filled), then filled
from the parallel name-ordinal and name tables. -/
def exportMergeNames (numFuncs : Nat) (pOrdl pName : List Nat) :
    Option (List Nat) :=
  mergeNamedFuncs (List.replicate numFuncs 0) (pOrdl.zip pName)

/-- C2: evaluation of the export name-merge at the failing input.  With one
function-address slot (`NumberOfFunctions = 1`) and a single name whose
ordinal-offset is 5, the source writes `funcs[5]` into a 1-element array —
an out-of-bounds write, modelled as `none` — instead of treating the entry
as absent as the claim states. -/
theorem C2_export_name_merge_oob : exportMergeNames 1 [5] [256] = none := by
  decide

/-- The three IMAGE_IMPORT_DESCRIPTOR fields that drive the import walk in
`dump_dir_imported_functions` (pe.c lines 766-796). -/
structure ImportDescriptor where
  originalFirstThunk : Nat
  name : Nat
  firstThunk : Nat
deriving Repr, DecidableEq

/-- The descriptor loop of `dump_dir_imported_functions` (pe.c lines
766-796): `for (;;) { if (!importDesc->Name || !importDesc->FirstThunk)
break; ... importDesc++; }`.  The result is the list of descriptors that are
processed before the loop breaks. -/
def walkImportDescriptors : List ImportDescriptor → List ImportDescriptor
  | [] => []
  | d :: rest =>
      if d.name ≠ 0 ∧ d.firstThunk ≠ 0 then d :: walkImportDescriptors rest
      else []

/-- C3 counterexample: a descriptor with a non-zero Name (5) and a non-zero
OriginalFirstThunk (7) but a zero FirstThunk is not all-zero, yet the walk
stops on it and processes nothing — although it sits before the all-zero
sentinel.  This refutes "stops exactly on the all-zero sentinel and every
descriptor before the sentinel is processed". -/
theorem C3_import_sentinel_counterexample :
    (⟨7, 5, 0⟩ : ImportDescriptor) ≠ ⟨0, 0, 0⟩ ∧
    walkImportDescriptors [⟨7, 5, 0⟩, ⟨0, 0, 0⟩] = [] := by
  decide

/-- C3 amended: the import walk processes exactly the longest prefix of
descriptors whose Name and FirstThunk fields are both non-zero; it stops at
the first descriptor with a zero Name or a zero FirstThunk (in particular at
an all-zero sentinel). -/
theorem C3_import_walk_amended (l : List ImportDescriptor) :
    walkImportDescriptors l =
      l.takeWhile (fun d => decide (d.name ≠ 0) && decide (d.firstThunk ≠ 0)) := by
  induction l with
  | nil => rfl
  | cons d rest ih =>
      rw [List.takeWhile_cons, walkImportDescriptors]
      by_cases h1 : d.name ≠ 0
      · by_cases h2 : d.firstThunk ≠ 0
        · rw [if_pos ⟨h1, h2⟩, if_pos (by simp [h1, h2]), ih]
        · rw [if_neg (by tauto), if_neg (by simp [h2])]
      · rw [if_neg (by tauto), if_neg (by simp [h1])]

/-- The thunk-table resolution of `dump_dir_imported_functions` (pe.c lines
781-783): `il = (importDesc->u.OriginalFirstThunk != 0) ?
RVA(OriginalFirstThunk, sizeof(DWORD)) : RVA(FirstThunk, sizeof(DWORD));`. -/
def resolveThunkTable (img : List Nat) (sections : List PESection)
    (d : ImportDescriptor) : Option (List Nat) :=
  if d.originalFirstThunk ≠ 0 then RVA img sections d.originalFirstThunk 4
  else RVA img sections d.firstThunk 4

/-- C8: for every import descriptor the thunk table is resolved from
OriginalFirstThunk whenever that field is non-zero, and from FirstThunk only
when OriginalFirstThunk is zero. -/
theorem C8_thunk_table_preference (img : List Nat) (sections : List PESection)
    (d : ImportDescriptor) :
    (d.originalFirstThunk ≠ 0 →
      resolveThunkTable img sections d = RVA img sections d.originalFirstThunk 4) ∧
    (d.originalFirstThunk = 0 →
      resolveThunkTable img sections d = RVA img sections d.firstThunk 4) := by
  constructor <;> intro h <;> simp [resolveThunkTable, h]

/-- C8 witness: a concrete descriptor with OriginalFirstThunk 7 resolves its
thunk table from virtual address 7. -/
theorem C8_thunk_table_preference_witness :
    resolveThunkTable [] [] ⟨7, 5, 9⟩ = RVA [] [] 7 4 :=
  (C8_thunk_table_preference [] [] ⟨7, 5, 9⟩).1 (by decide)

/-- Little-endian multi-byte read from the directory bytes, as the C code
reads DWORD and USHORT fields from the mapped image. -/
def readLE (bytes : List Nat) (pos : Nat) : Nat → Nat
  | 0 => 0
  | n + 1 => bytes.getD pos 0 % 256 + 256 * readLE bytes (pos + 1) n

/-- The fixed 16-entry relocation type-name table of `dump_dir_reloc`
(pe.c lines 999-1017). -/
def relocNames : List String :=
  ["BASED_ABSOLUTE", "BASED_HIGH", "BASED_LOW", "BASED_HIGHLOW",
   "BASED_HIGHADJ", "BASED_MIPS_JMPADDR", "BASED_SECTION", "BASED_REL",
   "unknown 8", "BASED_IA64_IMM64", "BASED_DIR64", "BASED_HIGH3ADJ",
   "unknown 12", "unknown 13", "unknown 14", "unknown 15"]

/-- Decode of one 16-bit relocation entry (pe.c lines 1029-1031):
`offset = *relocs & 0xfff; type = *relocs >> 12;` printed as
`names[type]`. -/
def decodeRelocEntry (w : Nat) : Nat × String :=
  (w % 4096, relocNames.getD (w / 4096) "")

/-- The inner entry loop of `dump_dir_reloc`: `cnt` USHORT entries starting
at byte offset `pos`. -/
def relocEntriesAt (dir : List Nat) (pos : Nat) : Nat → List (Nat × String)
  | 0 => []
  | k + 1 => decodeRelocEntry (readLE dir pos 2) :: relocEntriesAt dir (pos + 2) k

/-- One decoded base-relocation block: the page virtual address and the
decoded entries. -/
structure RelocBlock where
  page : Nat
  entries : List (Nat × String)
deriving Repr, DecidableEq

/-- The block loop of `dump_dir_reloc` (pe.c lines 1022-1035):
`while (rel < end - 1 && rel->SizeOfBlock)`.  With `pos` the byte offset of
`rel` inside the directory, `rel < end - 1` is `pos + 8 < dir.length`.  The
entry count is `(SizeOfBlock - sizeof(*rel)) / sizeof(USHORT)` computed in
DWORD arithmetic (hence the wrap-around term), and the next block starts
where the entry cursor stops. -/
def relocWalk (dir : List Nat) : Nat → Nat → List RelocBlock
  | _, 0 => []
  | pos, fuel + 1 =>
      if pos + 8 < dir.length then
        let sz := readLE dir (pos + 4) 4
        if sz ≠ 0 then
          let cnt := ((sz + 4294967288) % 4294967296) / 2
          { page := readLE dir pos 4, entries := relocEntriesAt dir (pos + 8) cnt } ::
            relocWalk dir (pos + 8 + 2 * cnt) fuel
        else []
      else []

/-- Top-level `dump_dir_reloc`: walk the directory from offset 0 with enough
fuel for every possible block. -/
def dump_dir_reloc (dir : List Nat) : List RelocBlock :=
  relocWalk dir 0 (dir.length + 1)

/-- Modelled from the spec: the block walker as claim C4 describes the stop
condition, stopping exactly when the remaining directory bytes are
insufficient for another 8-byte block header (and only then). -/
def relocWalkClaim (dir : List Nat) : Nat → Nat → List RelocBlock
  | _, 0 => []
  | pos, fuel + 1 =>
      if pos + 8 ≤ dir.length then
        let sz := readLE dir (pos + 4) 4
        let cnt := ((sz + 4294967288) % 4294967296) / 2
        { page := readLE dir pos 4, entries := relocEntriesAt dir (pos + 8) cnt } ::
          relocWalkClaim dir (pos + 8 + 2 * cnt) fuel
      else []

/-- C4 counterexample: an 8-byte directory holding exactly one block header
(page 0x1000, SizeOfBlock 8, no entries).  Eight remaining bytes are
sufficient for another block header, so the claimed stop condition decodes
the block, but the source walker (`rel < end - 1`) stops immediately and
decodes nothing. -/
theorem C4_reloc_counterexample :
    dump_dir_reloc [0, 16, 0, 0, 8, 0, 0, 0] = [] ∧
    relocWalkClaim [0, 16, 0, 0, 8, 0, 0, 0] 0 9 = [⟨4096, []⟩] ∧
    dump_dir_reloc [0, 16, 0, 0, 8, 0, 0, 0] ≠
      relocWalkClaim [0, 16, 0, 0, 8, 0, 0, 0] 0 9 := by
  refine ⟨by decide, by decide, by decide⟩

/-- C4 amended: each 16-bit entry decodes as (offset = low 12 bits, type =
top 4 bits) named by the fixed table — on the spec's two-entry block with
entries (0x004, type 3) and (0x100, type 10) the walker reports
BASED_HIGHLOW and BASED_DIR64 — and the block walker stops exactly when at
most 8 directory bytes remain (one full block header left does not continue
the walk) or when the next block's SizeOfBlock field is zero. -/
theorem C4_reloc_amended :
    dump_dir_reloc [0, 16, 0, 0, 12, 0, 0, 0, 4, 48, 0, 161] =
      [⟨4096, [(4, "BASED_HIGHLOW"), (256, "BASED_DIR64")]⟩] ∧
    (∀ (dir : List Nat) (pos fuel : Nat),
      relocWalk dir pos (fuel + 1) = [] ↔
        (dir.length ≤ pos + 8 ∨ readLE dir (pos + 4) 4 = 0)) := by
  constructor
  · decide
  · intro dir pos fuel
    simp only [relocWalk]
    by_cases h1 : pos + 8 < dir.length
    · rw [if_pos h1]
      by_cases h2 : readLE dir (pos + 4) 4 = 0
      · rw [if_neg (by simpa using h2)]
        exact iff_of_true rfl (Or.inr h2)
      · rw [if_pos h2]
        refine iff_of_false (List.cons_ne_nil _ _) ?_
        rintro (h | h)
        · omega
        · exact h2 h
    · rw [if_neg h1]
      exact iff_of_true rfl (Or.inl (by omega))

/-- One decoded unwind operation, mirroring the lines printed by the switch
in `dump_x86_64_unwind_info` (pe.c lines 624-676). -/
inductive UnwindOp where
  | pushNonvol (offset reg : Nat)
  | allocLarge (offset amount : Nat)
  | allocSmall (offset amount : Nat)
  | setFpreg (offset : Nat)
  | saveNonvol (offset reg amount : Nat)
  | saveXmm128 (offset reg amount : Nat)
  | pushMachframe (offset info : Nat)
  | unknown (offset code : Nat)
deriving Repr, DecidableEq

/-- The parsed header fields of `struct unwind_info` (pe.c lines 560-570)
with the opcode array as a list of 16-bit slot words (an opcode slot is
`BYTE offset; BYTE code : 4; BYTE info : 4;`, so for slot word `w` the
offset is `w % 256`, the code `(w / 256) % 16` and the info `w / 4096`). -/
structure UnwindInfo where
  version : Nat
  flags : Nat
  prolog : Nat
  count : Nat
  frame_reg : Nat
  frame_offset : Nat
  words : List Nat
deriving Repr, DecidableEq

/-- One arm of the opcode switch of `dump_x86_64_unwind_info` (pe.c lines
624-676): the decoded operation at slot `i` and the slot cursor after the
arm, including the `i += 2` / `i++` adjustments and the trailing `i++` of
the for loop.  `*(USHORT *)&opcodes[i+1]` is the next slot word and
`*(DWORD *)&opcodes[i+1]` combines the next two slot words
little-endian. -/
def decodeStep (words : List Nat) (i : Nat) : UnwindOp × Nat :=
  let w := words.getD i 0 % 65536
  let off := w % 256
  let code := (w / 256) % 16
  let info := w / 4096
  if code = 0 then (.pushNonvol off info, i + 1)
  else if code = 1 then
    if info ≠ 0 then
      (.allocLarge off (words.getD (i + 1) 0 % 65536 + 65536 * (words.getD (i + 2) 0 % 65536)), i + 3)
    else (.allocLarge off (words.getD (i + 1) 0 % 65536 * 8), i + 2)
  else if code = 2 then (.allocSmall off ((info + 1) * 8), i + 1)
  else if code = 3 then (.setFpreg off, i + 1)
  else if code = 4 then (.saveNonvol off info (words.getD (i + 1) 0 % 65536 * 8), i + 2)
  else if code = 5 then
    (.saveNonvol off info (words.getD (i + 1) 0 % 65536 + 65536 * (words.getD (i + 2) 0 % 65536)), i + 3)
  else if code = 8 then (.saveXmm128 off info (words.getD (i + 1) 0 % 65536 * 16), i + 2)
  else if code = 9 then
    (.saveXmm128 off info (words.getD (i + 1) 0 % 65536 + 65536 * (words.getD (i + 2) 0 % 65536)), i + 3)
  else if code = 10 then (.pushMachframe off info, i + 1)
  else (.unknown off code, i + 1)

/-- The opcode loop of `dump_x86_64_unwind_info`:
`for (i = 0; i < info->count; i++)` with the cursor adjustments folded into
`decodeStep`.  Each iteration consumes at least one slot, so fuel `count`
always suffices. -/
def decodeLoop (words : List Nat) (count : Nat) : Nat → Nat → List UnwindOp
  | _, 0 => []
  | i, fuel + 1 =>
      if i < count then
        (decodeStep words i).1 :: decodeLoop words count (decodeStep words i).2 fuel
      else []

/-- The unwind-info record decode of `dump_x86_64_unwind_info` (pe.c lines
606-677): a version other than 1 is reported and decoding stops for the
record (modelled as `none`); otherwise the opcode slots are decoded. -/
def dump_x86_64_unwind_info (u : UnwindInfo) : Option (List UnwindOp) :=
  if u.version ≠ 1 then none
  else some (decodeLoop u.words u.count 0 u.count)

/-- Modelled from the claim: the documented slot count of each opcode —
push nonvolatile register 1 slot, large stack alloc 2 slots when its info
field is 0 and 3 otherwise, small stack alloc 1 slot, set frame register 1
slot, save nonvolatile register or xmm 2 slots and their far variants 3
slots, everything else 1 slot. -/
def docSlots (code info : Nat) : Nat :=
  if code = 0 then 1
  else if code = 1 then (if info = 0 then 2 else 3)
  else if code = 2 then 1
  else if code = 3 then 1
  else if code = 4 then 2
  else if code = 5 then 3
  else if code = 8 then 2
  else if code = 9 then 3
  else 1

/-- C5: an unwind-info record whose version is not 1 is reported and not
decoded; otherwise every decoded opcode advances the slot cursor by exactly
its documented slot count, and each loop iteration consumes exactly one
decoded opcode at the stepped cursor, so successive opcodes never
misalign. -/
theorem C5_unwind_slot_advance :
    (∀ u : UnwindInfo, u.version ≠ 1 → dump_x86_64_unwind_info u = none) ∧
    (∀ (words : List Nat) (i : Nat),
      (decodeStep words i).2 =
        i + docSlots ((words.getD i 0 % 65536 / 256) % 16) (words.getD i 0 % 65536 / 4096)) ∧
    (∀ (words : List Nat) (count i fuel : Nat), i < count →
      decodeLoop words count i (fuel + 1) =
        (decodeStep words i).1 :: decodeLoop words count (decodeStep words i).2 fuel) := by
  refine ⟨fun u h => by simp [dump_x86_64_unwind_info, h], ?_, ?_⟩
  · intro words i
    simp only [decodeStep, docSlots]
    split_ifs <;> omega
  · intro words count i fuel h
    simp [decodeLoop, h]

/-- C5 witness: a record with version 2 is rejected, and the loop step at a
concrete slot list unfolds through `decodeStep`. -/
theorem C5_unwind_slot_advance_witness :
    dump_x86_64_unwind_info ⟨2, 0, 0, 0, 0, 0, []⟩ = none ∧
    decodeLoop [4] 1 0 1 =
      (decodeStep [4] 0).1 :: decodeLoop [4] 1 (decodeStep [4] 0).2 0 :=
  ⟨C5_unwind_slot_advance.1 ⟨2, 0, 0, 0, 0, 0, []⟩ (by decide),
   C5_unwind_slot_advance.2.2 [4] 1 0 0 (by decide)⟩

/-- One entry of the symbol-enumerator list (`dll_symbol`, pe.c lines
1512-1515): an ordinal and a name, the name modelled as its character
list. -/
structure DllSymbol where
  ordinal : Nat
  symbol : List Char
deriving Repr, DecidableEq

/-- The ordinal-only synthesis loop of `do_grab_sym` (pe.c lines 1585-1601):
for every slot `i` of the function-address table with `pFunc[i]` non-zero
and the claimed bit for `i` clear, append a symbol named
`snprintf("%s_%u", module, Base + i)` passed through `str_toupper`
(uppercasing modelled from the spec, since str_toupper is outside the
sampled source), with ordinal `Base + i` (computed in DWORD arithmetic).
The claimed bitmap is modelled as the list of name ordinal-offsets, a bit
being set exactly when the slot index occurs in that list. -/
def synthFrom (module : List Char) (base : Nat) (claimed : List Nat) :
    Nat → List Nat → List DllSymbol
  | _, [] => []
  | i, f :: rest =>
      if f ≠ 0 ∧ claimed.contains i = false then
        { ordinal := (base + i) % 4294967296,
          symbol := (module ++ '_' :: Nat.toDigits 10 ((base + i) % 4294967296)).map Char.toUpper } ::
          synthFrom module base claimed (i + 1) rest
      else synthFrom module base claimed (i + 1) rest

/-- The synthesis pass of `do_grab_sym` started at slot 0 over the whole
function-address table. -/
def do_grab_sym_synth (module : List Char) (base : Nat)
    (pFunc pOrdl : List Nat) : List DllSymbol :=
  synthFrom module base pOrdl 0 pFunc

lemma synthFrom_mem (module : List Char) (base : Nat) (claimed : List Nat) :
    ∀ (pFunc : List Nat) (start i : Nat), i < pFunc.length →
      pFunc.getD i 0 ≠ 0 → claimed.contains (start + i) = false →
      ({ ordinal := (base + (start + i)) % 4294967296,
         symbol := (module ++ '_' ::
           Nat.toDigits 10 ((base + (start + i)) % 4294967296)).map Char.toUpper } : DllSymbol) ∈
        synthFrom module base claimed start pFunc := by
  intro pFunc
  induction pFunc with
  | nil =>
      intro start i hi
      simp at hi
  | cons f rest ih =>
      intro start i hi hf hc
      cases i with
      | zero =>
          simp only [Nat.add_zero] at hc ⊢
          have hf0 : f ≠ 0 := by simpa using hf
          simp only [synthFrom, if_pos (And.intro hf0 hc)]
          exact List.mem_cons_self _ _
      | succ j =>
          have harr : start + (j + 1) = start + 1 + j := by omega
          rw [harr] at hc ⊢
          have hj : j < rest.length := by simpa using hi
          have hfj : rest.getD j 0 ≠ 0 := by simpa using hf
          have hrec := ih (start + 1) j hj hfj hc
          simp only [synthFrom]
          by_cases hcond : f ≠ 0 ∧ claimed.contains start = false
          · rw [if_pos hcond]
            exact List.mem_cons_of_mem _ hrec
          · rw [if_neg hcond]
            exact hrec

/-- C6: every non-zero, unclaimed function-address slot `i` synthesizes a
symbol named module name, underscore, decimal of (ordinal base + slot
index), uppercased, with that ordinal; in the 3-function example with only
slot 1 claimed, slots 0 and 2 yield FOO_1 and FOO_3 for base 1 (names
MODULE_(base+0) and MODULE_(base+2)). -/
theorem C6_synth_ordinal_names :
    (∀ (module : List Char) (base : Nat) (pFunc pOrdl : List Nat) (i : Nat),
      i < pFunc.length → pFunc.getD i 0 ≠ 0 → pOrdl.contains i = false →
      base + i < 4294967296 →
      ({ ordinal := base + i,
         symbol := (module ++ '_' :: Nat.toDigits 10 (base + i)).map Char.toUpper } : DllSymbol) ∈
        do_grab_sym_synth module base pFunc pOrdl) ∧
    do_grab_sym_synth ['f', 'o', 'o'] 1 [10, 20, 30] [1] =
      [⟨1, ['F', 'O', 'O', '_', '1']⟩, ⟨3, ['F', 'O', 'O', '_', '3']⟩] := by
  constructor
  · intro module base pFunc pOrdl i hi hf hc hlt
    have hm := synthFrom_mem module base pOrdl pFunc 0 i hi hf (by simpa using hc)
    simpa [Nat.mod_eq_of_lt hlt] using hm
  · decide

/-- C6 witness: in the concrete 3-function table with base 1 and slot 1
claimed, the unclaimed non-zero slot 2 synthesizes the symbol FOO_3 with
ordinal 3. -/
theorem C6_synth_ordinal_names_witness :
    ({ ordinal := 1 + 2,
       symbol := (['f', 'o', 'o'] ++ '_' :: Nat.toDigits 10 (1 + 2)).map Char.toUpper } : DllSymbol) ∈
      do_grab_sym_synth ['f', 'o', 'o'] 1 [10, 20, 30] [1] :=
  C6_synth_ordinal_names.1 ['f', 'o', 'o'] 1 [10, 20, 30] [1] 2
    (by decide) (by decide) (by decide) (by decide)

/-- The loop of `dump_string_data` (pe.c lines 1257-1280): up to 16
length-prefixed UTF-16 strings; iteration `i` reads the length prefix at
word cursor `pos`, clamps it to the remaining `size`, and reports a
non-empty string with global ID `(id - 1) * 16 + i` computed in DWORD
arithmetic (the wrap-around term models the unsigned `id - 1`).  Each
reported entry carries (slot index, global ID, the `len` character words
read from the cursor). -/
def stringLoop (words : List Nat) (id : Nat) :
    Nat → Nat → Nat → Nat → List (Nat × Nat × List Nat)
  | 0, _, _, _ => []
  | fuel + 1, i, pos, size =>
      if size = 0 then []
      else
        if words.getD pos 0 % 65536 ≥ size then
          (i, ((id + 4294967295) * 16 + i) % 4294967296,
            (List.range size).map fun k => words.getD (pos + 1 + k) 0 % 65536) ::
            stringLoop words id fuel (i + 1) (pos + 1 + size) 0
        else
          if words.getD pos 0 % 65536 ≠ 0 then
            (i, ((id + 4294967295) * 16 + i) % 4294967296,
              (List.range (words.getD pos 0 % 65536)).map
                fun k => words.getD (pos + 1 + k) 0 % 65536) ::
              stringLoop words id fuel (i + 1) (pos + 1 + words.getD pos 0 % 65536)
                (size - (words.getD pos 0 % 65536 + 1))
          else stringLoop words id fuel (i + 1) (pos + 1) (size - 1)

/-- `dump_string_data` over a STRING resource leaf given as a list of 16-bit
words: the 16-iteration loop starting at slot 0, word cursor 0. -/
def dump_string_data (words : List Nat) (size id : Nat) :
    List (Nat × Nat × List Nat) :=
  stringLoop words id 16 0 0 size

lemma stringLoop_mem (words : List Nat) (id : Nat) :
    ∀ (fuel i pos size : Nat) (e : Nat × Nat × List Nat),
      e ∈ stringLoop words id fuel i pos size →
      e.2.1 = ((id + 4294967295) * 16 + e.1) % 4294967296 ∧ e.2.2 ≠ [] := by
  intro fuel
  induction fuel with
  | zero =>
      intro i pos size e he
      simp [stringLoop] at he
  | succ fuel ih =>
      intro i pos size e he
      rw [stringLoop] at he
      split_ifs at he with h1 h2 h3
      · simp at he
      · rcases List.mem_cons.1 he with he | he
        · subst he
          refine ⟨rfl, ?_⟩
          simp only [ne_eq, List.map_eq_nil_iff, List.range_eq_nil]
          exact h1
        · exact ih _ _ _ e he
      · rcases List.mem_cons.1 he with he | he
        · subst he
          refine ⟨rfl, ?_⟩
          simp only [ne_eq, List.map_eq_nil_iff, List.range_eq_nil]
          exact h3
        · exact ih _ _ _ e he
      · exact ih _ _ _ e he

/-- C9: every entry reported from a string-table leaf of block ordinal `id`
at slot `k` carries global string ID `(id - 1) * 16 + k`, and only non-empty
strings are reported; the concrete block of ordinal 2 with strings at slots
0 and 5 reports global IDs 16 and 21. -/
theorem C9_string_table_ids :
    (∀ (words : List Nat) (size id : Nat) (e : Nat × Nat × List Nat),
      e ∈ dump_string_data words size id → 1 ≤ id →
      (id - 1) * 16 + e.1 < 4294967296 →
      e.2.1 = (id - 1) * 16 + e.1 ∧ e.2.2 ≠ []) ∧
    dump_string_data [1, 65, 0, 0, 0, 0, 2, 66, 67, 0, 0, 0, 0, 0, 0, 0, 0, 0, 0]
        19 2 =
      [(0, 16, [65]), (5, 21, [66, 67])] := by
  constructor
  · intro words size id e he hid hlt
    obtain ⟨h1, h2⟩ := stringLoop_mem words id 16 0 0 size e he
    refine ⟨?_, h2⟩
    rw [h1]
    have harr : (id + 4294967295) * 16 + e.1 =
        ((id - 1) * 16 + e.1) + 16 * 4294967296 := by omega
    rw [harr, Nat.add_mul_mod_self_right, Nat.mod_eq_of_lt hlt]
  · decide

/-- C9 witness: the entry reported at slot 0 of the concrete ordinal-2 block
has global string ID 16 = (2 - 1) * 16 + 0 and a non-empty string. -/
theorem C9_string_table_ids_witness :
    ((0, 16, [65]) : Nat × Nat × List Nat).2.1 =
      (2 - 1) * 16 + ((0, 16, [65]) : Nat × Nat × List Nat).1 ∧
    ((0, 16, [65]) : Nat × Nat × List Nat).2.2 ≠ [] :=
  C9_string_table_ids.1
    [1, 65, 0, 0, 0, 0, 2, 66, 67, 0, 0, 0, 0, 0, 0, 0, 0, 0, 0] 19 2
    (0, 16, [65]) (by decide) (by decide) (by decide)

/-- The state of the symbol enumerator (pe.c lines 1517-1518): `none` models
`dll_current_symbol == NULL` (the list was never built); `some l` models a
cursor with `l` the symbols remaining before the NULL-name sentinel that
`do_grab_sym` places at the end of the array. -/
def dll_next_symbol (st : Option (List DllSymbol)) :
    Option (List DllSymbol) × Option DllSymbol × Nat :=
  match st with
  | none => (none, none, 1)
  | some [] => (some [], none, 1)
  | some (s :: rest) => (some rest, some s, 0)

/-- Repeated `dll_next_symbol` calls collecting every symbol copied out
until the end-of-sequence signal. -/
def drainSymbols : Option (List DllSymbol) → Nat → List DllSymbol
  | _, 0 => []
  | st, fuel + 1 =>
      match dll_next_symbol st with
      | (st2, some s, _) => s :: drainSymbols st2 fuel
      | (_, none, _) => []

/-- C10: `dll_next_symbol` returns the non-zero end signal and leaves the
output untouched (output component `none`) when the list was never built or
the cursor passed the last symbol; otherwise it returns 0, copies the
current symbol and advances the cursor; consequently repeated calls yield
exactly the built list. -/
theorem C10_dll_next_symbol :
    (dll_next_symbol none = (none, none, 1)) ∧
    (dll_next_symbol (some []) = (some [], none, 1)) ∧
    (∀ (s : DllSymbol) (rest : List DllSymbol),
      dll_next_symbol (some (s :: rest)) = (some rest, some s, 0)) ∧
    (∀ (l : List DllSymbol) (extra : Nat),
      drainSymbols (some l) (l.length + extra) = l) := by
  refine ⟨rfl, rfl, fun s rest => rfl, ?_⟩
  intro l
  induction l with
  | nil =>
      intro extra
      cases extra with
      | zero => rfl
      | succ n => rfl
  | cons s rest ih =>
      intro extra
      have hlen : (s :: rest).length + extra = (rest.length + extra) + 1 := by
        simp only [List.length_cons]
        omega
      rw [hlen]
      show s :: drainSymbols (some rest) (rest.length + extra) = s :: rest
      rw [ih extra]
